import Mathlib

/-!
Shallow embedding of the clangd background indexer
(clang-tools-extra/clangd/index/Background.cpp): the shard version table,
the per-TU update step, the indexing pipeline, the project-load
reconciliation and the task-boosting logic, together with theorems
checking the documented behaviour of those functions.

Conventions of the embedding:
* content digests are natural numbers, file contents are strings;
* the StringMap structures of the C++ code are association lists keyed
  by absolute path (first matching entry wins, as for StringMap);
* external collaborators (file system, compilation database, shard
  storage success, the analyzer result) are explicit parameters;
* the side effects of one call (storeShard attempts, version-table
  writes, composite-index merges) are recorded in an event trace.
-/

set_option autoImplicit false

namespace Background

/-- ShardVersion (Background.h): the last recorded content digest and
error state for one absolute file path. -/
structure ShardVersion where
  Digest : Nat
  HadErrors : Bool
  deriving DecidableEq

/-- tooling::CompileCommand: identifies one translation unit. -/
structure CompileCommand where
  Filename : String
  Directory : String
  CommandLine : List String
  deriving DecidableEq

/-- One entry of IndexFileIn.Sources (an IncludeGraphNode): the digest
observed for the file during this analysis, and its HadErrors source
flag.  The keys of Sources are URIs in the C++ code and are resolved to
absolute paths at the start of BackgroundIndex::update; the model keys
Sources directly by the resolved absolute path. -/
structure SourceNode where
  Digest : Nat
  HadErrors : Bool
  deriving DecidableEq

/-- IndexFileIn: the result of analyzing one translation unit.  Slab
records carry, in their first component, the file they are attributable
to (the attribution itself is computed by FileShardedIndex, outside
this file). -/
structure IndexFileIn where
  Sources : List (String × SourceNode)
  Cmd : Option CompileCommand
  Symbols : List (String × String)
  Refs : List (String × String)
  Relations : List (String × String)
  deriving DecidableEq

/-- A per-file shard: an IndexFileIn restricted to one file. -/
structure IndexShard where
  Cmd : Option CompileCommand
  Symbols : List (String × String)
  Refs : List (String × String)
  Relations : List (String × String)
  deriving DecidableEq

/-- Lookup in an association list keyed by path (StringMap.find). -/
def alookup {β : Type} : String → List (String × β) → Option β
  | _, [] => none
  | p, (q, b) :: rest => if q = p then some b else alookup p rest

/-- Insert-or-overwrite in an association list keyed by path
(StringMap try_emplace followed by assignment). -/
def setEntry {β : Type} : List (String × β) → String → β → List (String × β)
  | [], p, b => [(p, b)]
  | (q, c) :: rest, p, b =>
    if q = p then (p, b) :: rest else (q, c) :: setEntry rest p b

/-- The observable actions of one BackgroundIndex::update call:
a storeShard attempt (with its success flag), a version-table entry
write, and an IndexedSymbols.update merge into the composite index. -/
inductive Event where
  | store (path : String) (shard : IndexShard) (ok : Bool)
  | tableWrite (path : String) (sv : ShardVersion)
  | merge (path : String) (shard : IndexShard) (isMain : Bool)
  deriving DecidableEq

/-- The path an event concerns. -/
def eventPath : Event → String
  | .store p _ _ => p
  | .tableWrite p _ => p
  | .merge p _ _ => p

/-- Whether the event happens inside the ShardVersionsMu critical
section (table writes and composite-index merges do, store attempts do
not). -/
def eventIsLocked : Event → Bool
  | .store _ _ _ => false
  | .tableWrite _ _ => true
  | .merge _ _ _ => true

/-- Forget the success flag of store events (used to compare runs that
differ only in storage outcomes). -/
def eraseStoreOk : Event → Event
  | .store p sh _ => .store p sh true
  | e => e

/-- Modelled from the spec: FileShardedIndex (FileIndex.cpp, not under
src/) partitions a TU result by file; each shard holds exactly the
records attributable to that file and initially carries the TU result
CompileCommand (BackgroundIndex::update then clears the command on
non-main shards). -/
def mkFileShard (idx : IndexFileIn) (p : String) : IndexShard :=
  { Cmd := idx.Cmd
    Symbols := idx.Symbols.filter (fun s => s.1 == p)
    Refs := idx.Refs.filter (fun s => s.1 == p)
    Relations := idx.Relations.filter (fun s => s.1 == p) }

/-- The shard actually persisted and merged for a path in
BackgroundIndex::update: the result of getShard, with the compile
command cleared when the path is not the main file of the TU
(Background.cpp lines 200-203). -/
def shardFor (main : String) (idx : IndexFileIn) (path : String) : IndexShard :=
  if path = main then mkFileShard idx path
  else { mkFileShard idx path with Cmd := none }

/-- The FilesToUpdate selection condition of BackgroundIndex::update
(lines 184-189): no snapshot entry, or a different digest, or the prior
entry had errors while the new run succeeded. -/
def needsUpdate (snapshot : List (String × ShardVersion)) (hadErrors : Bool)
    (p : String) (d : Nat) : Bool :=
  match alookup p snapshot with
  | none => true
  | some sv => decide (sv.Digest ≠ d) || (sv.HadErrors && !hadErrors)

/-- FilesToUpdate (lines 177-190): the paths of the TU result selected
for rewriting, with the digest newly observed for each. -/
def filesToUpdate (snapshot : List (String × ShardVersion)) (hadErrors : Bool)
    (sources : List (String × SourceNode)) : List (String × Nat) :=
  sources.filterMap (fun pn =>
    if needsUpdate snapshot hadErrors pn.1 pn.2.Digest then
      some (pn.1, pn.2.Digest)
    else none)

/-- The skip condition inside the locked section of
BackgroundIndex::update (line 219): the entry already existed, has the
same digest, had errors, and the new run is clean. -/
def skipEntry (table : List (String × ShardVersion)) (path : String)
    (hash : Nat) (hadErrors : Bool) : Bool :=
  match alookup path table with
  | none => false
  | some sv => decide (sv.Digest = hash) && sv.HadErrors && !hadErrors

/-- The per-file loop of BackgroundIndex::update (lines 196-233): for
each selected file, build its shard, clear the command on non-main
shards, attempt storeShard (a failure is logged and recorded as an
event with ok = false), then, under the version-table lock, either skip
(line 219) or write the table entry and merge the shard into the
composite index. -/
def updateLoop (main : String) (idx : IndexFileIn) (hadErrors : Bool)
    (storeOK : String → Bool) :
    List (String × ShardVersion) → List (String × Nat) →
      List (String × ShardVersion) × List Event
  | table, [] => (table, [])
  | table, (path, hash) :: rest =>
    let IF := shardFor main idx path
    let sEv := Event.store path IF (storeOK path)
    if skipEntry table path hash hadErrors then
      let r := updateLoop main idx hadErrors storeOK table rest
      (r.1, sEv :: r.2)
    else
      let r := updateLoop main idx hadErrors storeOK
        (setEntry table path ⟨hash, hadErrors⟩) rest
      (r.1, sEv :: Event.tableWrite path ⟨hash, hadErrors⟩ ::
        Event.merge path IF (path == main) :: r.2)

/-- BackgroundIndex::update (lines 173-234).  `snapshot` is the
ShardVersionsSnapshot argument used to select FilesToUpdate; `table` is
the live ShardVersions map read and written under the lock.  Returns
the final live table and the trace of store / table-write / merge
events. -/
def update (main : String) (idx : IndexFileIn)
    (snapshot table : List (String × ShardVersion))
    (hadErrors : Bool) (storeOK : String → Bool) :
    List (String × ShardVersion) × List Event :=
  updateLoop main idx hadErrors storeOK table
    (filesToUpdate snapshot hadErrors idx.Sources)

/-- Split a character list at every occurrence of the separator. -/
def splitOnChar (c : Char) : List Char → List (List Char)
  | [] => [[]]
  | x :: xs =>
    let r := splitOnChar c xs
    if x = c then [] :: r
    else
      match r with
      | [] => [[x]]
      | y :: ys => (x :: y) :: ys

/-- Join character lists with the separator. -/
def joinWithChar (c : Char) : List (List Char) → List Char
  | [] => []
  | [x] => x
  | x :: xs => x ++ c :: joinWithChar c xs

/-- llvm::sys::path::is_absolute for posix paths. -/
def isAbsolutePath (p : String) : Bool :=
  match p.data with
  | [] => false
  | c :: _ => c == '/'

/-- llvm::sys::path::remove_dots with remove_dot_dot = true, posix
style: drop empty and dot components, resolve dot-dot against the
preceding component (and drop a leading dot-dot when the path is
absolute). -/
def removeDots (p : String) : String :=
  let absolute := isAbsolutePath p
  let comps := (splitOnChar ('/') p.data).foldl
    (fun acc c =>
      if c = [] ∨ c = ['.'] then acc
      else if c = ['.', '.'] then
        (if acc ≠ [] ∧ acc.getLast? ≠ some ['.', '.'] then acc.dropLast
         else if absolute then acc else acc ++ [c])
      else acc ++ [c])
    ([] : List (List Char))
  String.mk ((if absolute then ['/'] else []) ++ joinWithChar ('/') comps)

/-- getAbsolutePath (Background.cpp lines 67-77): the command filename
if already absolute, otherwise the directory joined with the filename,
with dots removed. -/
def getAbsolutePath (cmd : CompileCommand) : String :=
  if isAbsolutePath cmd.Filename then cmd.Filename
  else removeDots (String.mk (cmd.Directory.data ++ '/' :: cmd.Filename.data))

/-- The per-file filter installed as IndexOpts.FileFilter in
BackgroundIndex::index (lines 273-289).  The fallible steps of the C++
lambda are modelled by its inputs: whether SM.getFileEntryForID
succeeded, the canonical absolute path when one exists, and the file
digest when one could be computed. -/
def fileFilter (snapshot : List (String × ShardVersion)) (validFile : Bool)
    (absPath : Option String) (dig : Option Nat) : Bool :=
  if !validFile then false
  else
    match absPath with
    | none => false
    | some p =>
      match dig with
      | none => false
      | some d =>
        match alookup p snapshot with
        | none => true
        | some sv =>
          if sv.Digest = d ∧ sv.HadErrors = false then false else true

/-- LoadedShard (BackgroundIndexLoader.h): a shard read back from
storage.  `hasShard` records whether the stored shard data itself was
present (LS.Shard non-null). -/
structure LoadedShard where
  AbsolutePath : String
  DependentTU : String
  Digest : Nat
  HadErrors : Bool
  CountReferences : Bool
  hasShard : Bool
  deriving DecidableEq

/-- shardIsStale (Background.cpp lines 79-88): re-read the live file at
the recorded path; an unreadable file is logged and treated as not
stale, otherwise the shard is stale exactly when the live digest
differs from the recorded one. -/
def shardIsStale (fs : String → Option String) (dg : String → Nat)
    (ls : LoadedShard) : Bool :=
  match fs ls.AbsolutePath with
  | none => false
  | some buf => decide (dg buf ≠ ls.Digest)

/-- BackgroundIndex::loadProject (lines 339-403), with the external
collaborators explicit: `fs` the file system, `dg` the digest function,
`getCC` the compilation database lookup.  Merges every loaded shard
with data into the version table, then computes the worklist: the
distinct DependentTU values of the stale shards, keeping those for
which a compile command resolves and silently skipping the rest. -/
def loadProject (fs : String → Option String) (dg : String → Nat)
    (getCC : String → Option CompileCommand)
    (table : List (String × ShardVersion)) (result : List LoadedShard) :
    List (String × ShardVersion) × List CompileCommand :=
  let table1 := result.foldl
    (fun t ls =>
      if ls.hasShard then setEntry t ls.AbsolutePath ⟨ls.Digest, ls.HadErrors⟩
      else t)
    table
  let tus := ((result.filter (fun ls => shardIsStale fs dg ls)).map
    (fun ls => ls.DependentTU)).dedup
  (table1, tus.filterMap getCC)

/-- The queue priority tiers (Background.h), highest last. -/
inductive QueuePriority where
  | IndexFile
  | IndexBoostedFile
  | LoadShards
  deriving DecidableEq

/-- A queued task, reduced to the fields the queue logic inspects. -/
structure Task where
  QueuePri : QueuePriority
  Tag : Option String
  deriving DecidableEq

/-- Modelled from the spec: BackgroundQueue::boost (BackgroundQueue.cpp,
not under src/) retroactively raises the priority tier of any
still-pending task carrying the tag. -/
def boost (tag : String) (newPri : QueuePriority) (queue : List Task) :
    List Task :=
  queue.map (fun t =>
    if t.Tag = some tag then { t with QueuePri := newPri } else t)

/-- llvm::sys::path::filename: the component after the last separator. -/
def pathFilename (p : String) : String :=
  String.mk (((splitOnChar ('/') p.data).getLast?).getD p.data)

/-- filenameWithoutExtension (Background.cpp lines 146-149): the
filename with its extension (everything from the last dot, with the
special components dot and dot-dot having no extension) dropped. -/
def filenameWithoutExtension (p : String) : String :=
  let fname := (pathFilename p).data
  if fname = ['.'] ∨ fname = ['.', '.'] then String.mk fname
  else
    let parts := splitOnChar ('.') fname
    if parts.length ≤ 1 then String.mk fname
    else String.mk (joinWithChar ('.') parts.dropLast)

/-- BackgroundIndex::indexFileTask (lines 151-163): an IndexFile-tier
task tagged with the main file filename without extension. -/
def indexFileTask (cmd : CompileCommand) : Task :=
  { QueuePri := QueuePriority.IndexFile
    Tag := some (filenameWithoutExtension cmd.Filename) }

/-- BackgroundIndex::boostRelated (lines 165-168).  `isHeader` stands
for the external isHeaderFile predicate (SourceCode.cpp, not under
src/). -/
def boostRelated (isHeader : String → Bool) (path : String)
    (queue : List Task) : List Task :=
  if isHeader path then
    boost (filenameWithoutExtension path) QueuePriority.IndexBoostedFile queue
  else queue

/-- The HadErrors marking of BackgroundIndex::index (lines 325-329):
set the HadErrors source flag on every entry of Sources. -/
def markSourcesHadErrors (idx : IndexFileIn) : IndexFileIn :=
  { idx with
    Sources := idx.Sources.map (fun pn => (pn.1, ⟨pn.2.Digest, true⟩)) }

/-- The external collaborators of one BackgroundIndex::index run: the
file system and digest engine, the outcomes of the fallible pipeline
steps (compiler invocation, compiler instance, BeginSourceFile, the
Execute error when it fails), the analyzer result, the uncompilable
error flag of the diagnostics, and the storage outcome per path. -/
structure AnalyzerEnv where
  fs : String → Option String
  dg : String → Nat
  buildCIOk : Bool
  prepOk : Bool
  beginOk : Bool
  execError : Option String
  result : IndexFileIn
  hadUncompilableErrors : Bool
  storeOK : String → Bool

/-- BackgroundIndex::index (lines 236-334): resolve the command to an
absolute path, read it (failing the task when unreadable), snapshot the
version table, run the fallible compile pipeline, then tag the result
with the compile command, mark all sources on uncompilable errors, and
hand the result to update.  Any failure aborts the task with an error
and performs no update. -/
def index (env : AnalyzerEnv) (cmd : CompileCommand)
    (table : List (String × ShardVersion)) :
    Except String (List (String × ShardVersion) × List Event) :=
  let absPath := getAbsolutePath cmd
  match env.fs absPath with
  | none => Except.error ("cannot read file")
  | some _buf =>
    let snapshot := table
    if !env.buildCIOk then
      Except.error ("could not build compiler invocation")
    else if !env.prepOk then
      Except.error ("could not build compiler instance")
    else if !env.beginOk then
      Except.error ("BeginSourceFile failed")
    else
      match env.execError with
      | some e => Except.error e
      | none =>
        let idx0 := { env.result with Cmd := some cmd }
        let hadErrors := env.hadUncompilableErrors
        let idx1 := if hadErrors then markSourcesHadErrors idx0 else idx0
        Except.ok (update absPath idx1 snapshot table hadErrors env.storeOK)

def cmdA : CompileCommand := ⟨"/proj/a.cpp", "/proj", ["clang"]⟩

def snapA : List (String × ShardVersion) := [("/proj/a.cpp", ⟨1, true⟩)]

def idxA : IndexFileIn :=
  { Sources := [("/proj/a.cpp", ⟨1, false⟩)], Cmd := some cmdA,
    Symbols := [], Refs := [], Relations := [] }

def snapB : List (String × ShardVersion) := [("/proj/b.h", ⟨7, false⟩)]

def idxB : IndexFileIn :=
  { Sources := [("/proj/b.h", ⟨7, false⟩)], Cmd := none,
    Symbols := [], Refs := [], Relations := [] }

def lsStale : LoadedShard :=
  { AbsolutePath := "/proj/c.h", DependentTU := "/proj/c.cpp", Digest := 3,
    HadErrors := false, CountReferences := false, hasShard := true }

def ccC : CompileCommand := ⟨"/proj/c.cpp", "/proj", []⟩

def getCCC : String → Option CompileCommand :=
  fun q => if q = "/proj/c.cpp" then some ccC else none

def cmdD : CompileCommand := ⟨"/proj/d.cpp", "/proj", []⟩

def idxD : IndexFileIn :=
  { Sources := [("/proj/d.cpp", ⟨5, false⟩)], Cmd := none,
    Symbols := [], Refs := [], Relations := [] }

def envD : AnalyzerEnv :=
  { fs := fun _ => some ("content"), dg := fun _ => 5, buildCIOk := true,
    prepOk := true, beginOk := true, execError := none, result := idxD,
    hadUncompilableErrors := true, storeOK := fun _ => true }

def lsGone : LoadedShard :=
  { AbsolutePath := "/proj/gone.h", DependentTU := "/proj/g.cpp", Digest := 2,
    HadErrors := false, CountReferences := false, hasShard := false }

def taskFoo : Task := { QueuePri := QueuePriority.IndexFile, Tag := some ("foo") }

def taskBar : Task := { QueuePri := QueuePriority.IndexFile, Tag := some ("bar") }

def isHeaderDotH : String → Bool :=
  fun p => decide ((splitOnChar ('.') p.data).getLast? = some ['h'])



theorem alookup_setEntry {β : Type} (t : List (String × β)) (p q : String) (b : β) :
    alookup q (setEntry t p b) = if p = q then some b else alookup q t := by
  induction t with
  | nil =>
    by_cases h : p = q <;> simp [setEntry, alookup, h]
  | cons hd tl ih =>
    obtain ⟨k, c⟩ := hd
    by_cases hk : k = p
    · subst hk
      by_cases hq : k = q <;> simp [setEntry, alookup, hq]
    · by_cases hq : k = q
      · subst hq
        have hpq : ¬ p = k := fun h => hk h.symm
        simp [setEntry, hk, alookup, hpq]
      · simp [setEntry, hk, alookup, hq, ih]

theorem updateLoop_nil (main : String) (idx : IndexFileIn) (he : Bool)
    (so : String → Bool) (table : List (String × ShardVersion)) :
    updateLoop main idx he so table [] = (table, []) := rfl

theorem updateLoop_cons (main : String) (idx : IndexFileIn) (he : Bool)
    (so : String → Bool) (table : List (String × ShardVersion))
    (path : String) (hash : Nat) (rest : List (String × Nat)) :
    updateLoop main idx he so table ((path, hash) :: rest) =
      if skipEntry table path hash he then
        ((updateLoop main idx he so table rest).1,
          Event.store path (shardFor main idx path) (so path) ::
            (updateLoop main idx he so table rest).2)
      else
        ((updateLoop main idx he so (setEntry table path ⟨hash, he⟩) rest).1,
          Event.store path (shardFor main idx path) (so path) ::
            Event.tableWrite path ⟨hash, he⟩ ::
            Event.merge path (shardFor main idx path) (path == main) ::
            (updateLoop main idx he so (setEntry table path ⟨hash, he⟩) rest).2) := rfl

theorem updateLoop_eventPath_mem (main : String) (idx : IndexFileIn) (he : Bool)
    (so : String → Bool) :
    ∀ (files : List (String × Nat)) (table : List (String × ShardVersion)) (ev : Event),
      ev ∈ (updateLoop main idx he so table files).2 →
      eventPath ev ∈ files.map Prod.fst := by
  intro files
  induction files with
  | nil => intro table ev h; simp [updateLoop_nil] at h
  | cons fh rest ih =>
    obtain ⟨path, hash⟩ := fh
    intro table ev h
    rw [updateLoop_cons] at h
    by_cases hsk : skipEntry table path hash he
    · rw [if_pos hsk] at h
      rcases List.mem_cons.mp h with rfl | h2
      · simp [eventPath]
      · exact List.mem_cons_of_mem _ (ih table ev h2)
    · rw [if_neg hsk] at h
      rcases List.mem_cons.mp h with rfl | h2
      · simp [eventPath]
      rcases List.mem_cons.mp h2 with rfl | h3
      · simp [eventPath]
      rcases List.mem_cons.mp h3 with rfl | h4
      · simp [eventPath]
      · exact List.mem_cons_of_mem _ (ih _ ev h4)

theorem updateLoop_tableAt_untouched (main : String) (idx : IndexFileIn) (he : Bool)
    (so : String → Bool) (p : String) :
    ∀ (files : List (String × Nat)) (table : List (String × ShardVersion)),
      (∀ fh ∈ files, fh.1 ≠ p) →
      alookup p (updateLoop main idx he so table files).1 = alookup p table := by
  intro files
  induction files with
  | nil => intro table _; rfl
  | cons fh rest ih =>
    obtain ⟨path, hash⟩ := fh
    intro table hne
    have hpne : path ≠ p := hne (path, hash) (List.mem_cons_self _ _)
    have hrest : ∀ fh ∈ rest, fh.1 ≠ p :=
      fun x hx => hne x (List.mem_cons_of_mem _ hx)
    rw [updateLoop_cons]
    by_cases hsk : skipEntry table path hash he
    · rw [if_pos hsk]
      exact ih table hrest
    · rw [if_neg hsk]
      rw [ih _ hrest, alookup_setEntry]
      simp [hpne]

theorem updateLoop_tableWrite_hadErrors (main : String) (idx : IndexFileIn)
    (he : Bool) (so : String → Bool) :
    ∀ (files : List (String × Nat)) (table : List (String × ShardVersion))
      (p : String) (sv : ShardVersion),
      Event.tableWrite p sv ∈ (updateLoop main idx he so table files).2 →
      sv.HadErrors = he := by
  intro files
  induction files with
  | nil => intro table p sv h; simp [updateLoop_nil] at h
  | cons fh rest ih =>
    obtain ⟨path, hash⟩ := fh
    intro table p sv h
    rw [updateLoop_cons] at h
    by_cases hsk : skipEntry table path hash he
    · rw [if_pos hsk] at h
      rcases List.mem_cons.mp h with heq | h2
      · exact absurd heq (by simp)
      · exact ih table p sv h2
    · rw [if_neg hsk] at h
      rcases List.mem_cons.mp h with heq | h2
      · exact absurd heq (by simp)
      rcases List.mem_cons.mp h2 with heq | h3
      · cases heq; rfl
      rcases List.mem_cons.mp h3 with heq | h4
      · exact absurd heq (by simp)
      · exact ih _ p sv h4

theorem updateLoop_store_shard (main : String) (idx : IndexFileIn)
    (he : Bool) (so : String → Bool) :
    ∀ (files : List (String × Nat)) (table : List (String × ShardVersion))
      (p : String) (sh : IndexShard) (ok : Bool),
      Event.store p sh ok ∈ (updateLoop main idx he so table files).2 →
      sh = shardFor main idx p := by
  intro files
  induction files with
  | nil => intro table p sh ok h; simp [updateLoop_nil] at h
  | cons fh rest ih =>
    obtain ⟨path, hash⟩ := fh
    intro table p sh ok h
    rw [updateLoop_cons] at h
    by_cases hsk : skipEntry table path hash he
    · rw [if_pos hsk] at h
      rcases List.mem_cons.mp h with heq | h2
      · cases heq; rfl
      · exact ih table p sh ok h2
    · rw [if_neg hsk] at h
      rcases List.mem_cons.mp h with heq | h2
      · cases heq; rfl
      rcases List.mem_cons.mp h2 with heq | h3
      · exact absurd heq (by simp)
      rcases List.mem_cons.mp h3 with heq | h4
      · exact absurd heq (by simp)
      · exact ih _ p sh ok h4

theorem updateLoop_merge_shard (main : String) (idx : IndexFileIn)
    (he : Bool) (so : String → Bool) :
    ∀ (files : List (String × Nat)) (table : List (String × ShardVersion))
      (p : String) (sh : IndexShard) (b : Bool),
      Event.merge p sh b ∈ (updateLoop main idx he so table files).2 →
      sh = shardFor main idx p := by
  intro files
  induction files with
  | nil => intro table p sh b h; simp [updateLoop_nil] at h
  | cons fh rest ih =>
    obtain ⟨path, hash⟩ := fh
    intro table p sh b h
    rw [updateLoop_cons] at h
    by_cases hsk : skipEntry table path hash he
    · rw [if_pos hsk] at h
      rcases List.mem_cons.mp h with heq | h2
      · exact absurd heq (by simp)
      · exact ih table p sh b h2
    · rw [if_neg hsk] at h
      rcases List.mem_cons.mp h with heq | h2
      · exact absurd heq (by simp)
      rcases List.mem_cons.mp h2 with heq | h3
      · exact absurd heq (by simp)
      rcases List.mem_cons.mp h3 with heq | h4
      · cases heq; rfl
      · exact ih _ p sh b h4

theorem shardFor_cmd (main : String) (idx : IndexFileIn) (p : String) :
    (shardFor main idx p).Cmd = if p = main then idx.Cmd else none := by
  by_cases h : p = main <;> simp [shardFor, mkFileShard, h]

theorem updateLoop_locked_after_store (main : String) (idx : IndexFileIn)
    (he : Bool) (so : String → Bool) :
    ∀ (files : List (String × Nat)) (table : List (String × ShardVersion))
      (j : Nat) (e : Event),
      (updateLoop main idx he so table files).2.get? j = some e →
      eventIsLocked e = true →
      ∃ i sh ok, i < j ∧
        (updateLoop main idx he so table files).2.get? i =
          some (Event.store (eventPath e) sh ok) := by
  intro files
  induction files with
  | nil => intro table j e hj _; simp [updateLoop_nil] at hj
  | cons fh rest ih =>
    obtain ⟨path, hash⟩ := fh
    intro table j e hj hl
    rw [updateLoop_cons] at hj ⊢
    by_cases hsk : skipEntry table path hash he
    · rw [if_pos hsk] at hj ⊢
      match j, hj with
      | 0, hj =>
        simp only [List.get?_cons_zero, Option.some.injEq] at hj
        subst hj
        simp [eventIsLocked] at hl
      | Nat.succ j, hj =>
        simp only [List.get?_cons_succ] at hj
        obtain ⟨i, sh, ok, hij, hi⟩ := ih table j e hj hl
        exact ⟨i + 1, sh, ok, by omega, by simpa using hi⟩
    · rw [if_neg hsk] at hj ⊢
      match j, hj with
      | 0, hj =>
        simp only [List.get?_cons_zero, Option.some.injEq] at hj
        subst hj
        simp [eventIsLocked] at hl
      | 1, hj =>
        simp only [List.get?_cons_succ, List.get?_cons_zero,
          Option.some.injEq] at hj
        subst hj
        exact ⟨0, shardFor main idx path, so path, by omega, by simp [eventPath]⟩
      | 2, hj =>
        simp only [List.get?_cons_succ, List.get?_cons_zero,
          Option.some.injEq] at hj
        subst hj
        exact ⟨0, shardFor main idx path, so path, by omega, by simp [eventPath]⟩
      | Nat.succ (Nat.succ (Nat.succ j)), hj =>
        simp only [List.get?_cons_succ] at hj
        obtain ⟨i, sh, ok, hij, hi⟩ := ih _ j e hj hl
        exact ⟨i + 3, sh, ok, by omega, by simpa using hi⟩

theorem updateLoop_storeOK_congr (main : String) (idx : IndexFileIn) (he : Bool)
    (so1 so2 : String → Bool) :
    ∀ (files : List (String × Nat)) (table : List (String × ShardVersion)),
      (updateLoop main idx he so1 table files).1 =
        (updateLoop main idx he so2 table files).1 ∧
      (updateLoop main idx he so1 table files).2.map eraseStoreOk =
        (updateLoop main idx he so2 table files).2.map eraseStoreOk := by
  intro files
  induction files with
  | nil => intro table; exact ⟨rfl, rfl⟩
  | cons fh rest ih =>
    obtain ⟨path, hash⟩ := fh
    intro table
    rw [updateLoop_cons, updateLoop_cons]
    by_cases hsk : skipEntry table path hash he
    · rw [if_pos hsk, if_pos hsk]
      obtain ⟨h1, h2⟩ := ih table
      exact ⟨h1, by simp [eraseStoreOk, h2]⟩
    · rw [if_neg hsk, if_neg hsk]
      obtain ⟨h1, h2⟩ := ih (setEntry table path ⟨hash, he⟩)
      exact ⟨h1, by simp [eraseStoreOk, h2]⟩

theorem filesToUpdate_fst_ne (snapshot : List (String × ShardVersion))
    (he : Bool) (sources : List (String × SourceNode)) (p : String) (d : Nat)
    (hsnap : alookup p snapshot = some ⟨d, false⟩)
    (hsrc : ∀ pn ∈ sources, pn.1 = p → pn.2.Digest = d) :
    ∀ fh ∈ filesToUpdate snapshot he sources, fh.1 ≠ p := by
  intro fh hfh
  simp only [filesToUpdate, List.mem_filterMap] at hfh
  obtain ⟨pn, hpn, hcond⟩ := hfh
  by_cases hp : pn.1 = p
  · have hd : pn.2.Digest = d := hsrc pn hpn hp
    have : needsUpdate snapshot he pn.1 pn.2.Digest = false := by
      simp [needsUpdate, hp, hd, hsnap]
    rw [this] at hcond
    simp at hcond
  · have : fh.1 = pn.1 := by
      by_cases hn : needsUpdate snapshot he pn.1 pn.2.Digest
      · rw [if_pos hn] at hcond
        cases hcond
        rfl
      · rw [if_neg hn] at hcond
        simp at hcond
    rw [this]
    exact hp

/-- Claim C1 (code_bug evidence): with a version-table entry recording
HadErrors and a clean re-run at the same digest, update selects the
file and persists its shard, but the skip condition of line 219 then
fires, so the table entry keeps HadErrors = true and no table write or
composite-index merge happens, contrary to the comment above that line
and to the selection rule of lines 185-189. -/
theorem update_errorRecovery_skipped :
    update ("/proj/a.cpp") idxA snapA snapA false (fun _ => true) =
      (snapA, [Event.store ("/proj/a.cpp") ⟨some cmdA, [], [], []⟩ true]) ∧
    alookup ("/proj/a.cpp")
        (update ("/proj/a.cpp") idxA snapA snapA false (fun _ => true)).1 =
      some ⟨1, true⟩ := by
  constructor
  · decide
  · decide

/-- Claim C2: if the version-table snapshot has an entry for a path
whose digest equals every digest observed for that path in the TU
result and which was previously clean, then update performs no
storeShard call, no table write and no composite-index merge for that
path, and leaves the live table entry for it unchanged. -/
theorem update_idempotent_noop (main : String) (idx : IndexFileIn)
    (snapshot table : List (String × ShardVersion)) (hadErrors : Bool)
    (storeOK : String → Bool) (p : String) (d : Nat)
    (hsnap : alookup p snapshot = some ⟨d, false⟩)
    (hsrc : ∀ pn ∈ idx.Sources, pn.1 = p → pn.2.Digest = d) :
    (∀ ev ∈ (update main idx snapshot table hadErrors storeOK).2,
      eventPath ev ≠ p) ∧
    alookup p (update main idx snapshot table hadErrors storeOK).1 =
      alookup p table := by
  have hne := filesToUpdate_fst_ne snapshot hadErrors idx.Sources p d hsnap hsrc
  constructor
  · intro ev hev hp
    have hmem := updateLoop_eventPath_mem main idx hadErrors storeOK
      (filesToUpdate snapshot hadErrors idx.Sources) table ev hev
    rw [hp] at hmem
    simp only [List.mem_map] at hmem
    obtain ⟨fh, hfh, hf⟩ := hmem
    exact hne fh hfh hf
  · exact updateLoop_tableAt_untouched main idx hadErrors storeOK p
      (filesToUpdate snapshot hadErrors idx.Sources) table hne

/-- Witness for C2: a concrete unchanged, previously clean header. -/
theorem update_idempotent_noop_witness :
    alookup ("/proj/b.h")
        (update ("/proj/b.cpp") idxB snapB snapB false (fun _ => true)).1 =
      alookup ("/proj/b.h") snapB :=
  (update_idempotent_noop ("/proj/b.cpp") idxB snapB snapB false
    (fun _ => true) ("/proj/b.h") 7 (by decide) (by decide)).2

/-- Claim C3: the worklist computed by loadProject consists exactly of
the compile commands resolving for the DependentTU values of the stale
loaded shards; a stale shard whose TU has no compile command
contributes nothing (and the TU set consulted is duplicate-free). -/
theorem loadProject_worklist_exact (fs : String → Option String)
    (dg : String → Nat) (getCC : String → Option CompileCommand)
    (table : List (String × ShardVersion)) (result : List LoadedShard) :
    (∀ c : CompileCommand,
      c ∈ (loadProject fs dg getCC table result).2 ↔
        ∃ ls, ls ∈ result ∧ shardIsStale fs dg ls = true ∧
          getCC ls.DependentTU = some c) ∧
    ((result.filter (fun ls => shardIsStale fs dg ls)).map
      (fun ls => ls.DependentTU)).dedup.Nodup := by
  constructor
  · intro c
    simp only [loadProject, List.mem_filterMap, List.mem_dedup, List.mem_map,
      List.mem_filter]
    constructor
    · rintro ⟨tu, ⟨ls, ⟨hls, hst⟩, rfl⟩, hcc⟩
      exact ⟨ls, hls, hst, hcc⟩
    · rintro ⟨ls, hls, hst, hcc⟩
      exact ⟨ls.DependentTU, ⟨ls, ⟨hls, hst⟩, rfl⟩, hcc⟩
  · exact List.nodup_dedup _

/-- Witness for C3: one stale shard whose TU resolves. -/
theorem loadProject_worklist_exact_witness :
    ccC ∈ (loadProject (fun _ => some ("x")) (fun _ => 9) getCCC []
      [lsStale]).2 :=
  ((loadProject_worklist_exact (fun _ => some ("x")) (fun _ => 9) getCCC []
    [lsStale]).1 ccC).mpr ⟨lsStale, by decide, by decide, by decide⟩

/-- Claim C4 counterexample: a considered file whose digest cannot be
computed is skipped (the filter returns false) although no version
table entry matches it, refuting the claimed equivalence. -/
theorem fileFilter_skips_undigestable_file :
    fileFilter [] true (some ("/proj/x.h")) none = false ∧
    alookup ("/proj/x.h") ([] : List (String × ShardVersion)) = none := by
  constructor
  · rfl
  · rfl

/-- Claim C4 (amended): for a valid file with an absolute path and an
obtainable digest, the filter returns false exactly when a snapshot
entry with equal digest and no errors exists; it additionally returns
false whenever the file entry is invalid, no absolute path exists, or
the digest cannot be computed. -/
theorem fileFilter_characterization (snapshot : List (String × ShardVersion)) :
    (∀ (p : String) (d : Nat),
      fileFilter snapshot true (some p) (some d) = false ↔
        ∃ sv, alookup p snapshot = some sv ∧ sv.Digest = d ∧
          sv.HadErrors = false) ∧
    (∀ (a : Option String) (b : Option Nat), fileFilter snapshot false a b = false) ∧
    (∀ b : Option Nat, fileFilter snapshot true none b = false) ∧
    (∀ p : String, fileFilter snapshot true (some p) none = false) := by
  refine ⟨fun p d => ?_, fun a b => rfl, fun b => rfl, fun p => rfl⟩
  cases h : alookup p snapshot with
  | none => simp [fileFilter, h]
  | some sv =>
    by_cases hc : sv.Digest = d ∧ sv.HadErrors = false
    · simp [fileFilter, h, hc, hc.1, hc.2]
    · simp only [fileFilter, Bool.not_true, Bool.false_eq_true, if_false, h]
      rw [if_neg hc]
      simp only [Bool.true_eq_false, false_iff, not_exists]
      intro sv2
      rintro ⟨heq, h1, h2⟩
      cases heq
      exact hc ⟨h1, h2⟩

/-- Witness for C4: a matching clean entry makes the filter skip. -/
theorem fileFilter_characterization_witness :
    fileFilter [("/proj/y.h", ⟨4, false⟩)] true (some ("/proj/y.h"))
      (some 4) = false :=
  ((fileFilter_characterization [("/proj/y.h", ⟨4, false⟩)]).1
    ("/proj/y.h") 4).mpr ⟨⟨4, false⟩, by decide, rfl, rfl⟩

/-- Claim C5: in the trace of one update call, any event performed
under the version-table lock (a table write or a composite-index merge)
for a path is preceded by a storeShard attempt for the same path. -/
theorem update_store_precedes_locked (main : String) (idx : IndexFileIn)
    (snapshot table : List (String × ShardVersion)) (hadErrors : Bool)
    (storeOK : String → Bool) (j : Nat) (e : Event)
    (hj : (update main idx snapshot table hadErrors storeOK).2.get? j = some e)
    (hl : eventIsLocked e = true) :
    ∃ i sh ok, i < j ∧
      (update main idx snapshot table hadErrors storeOK).2.get? i =
        some (Event.store (eventPath e) sh ok) :=
  updateLoop_locked_after_store main idx hadErrors storeOK
    (filesToUpdate snapshot hadErrors idx.Sources) table j e hj hl

/-- Witness for C5: the merge for a fresh header sits at position 2,
after its store attempt. -/
theorem update_store_precedes_locked_witness :
    ∃ i sh ok, i < 2 ∧
      (update ("/proj/b.cpp") idxB [] [] false (fun _ => true)).2.get? i =
        some (Event.store ("/proj/b.h") sh ok) :=
  update_store_precedes_locked ("/proj/b.cpp") idxB [] [] false
    (fun _ => true) 2 (Event.merge ("/proj/b.h") ⟨none, [], [], []⟩ false)
    (by decide) (by decide)

/-- Claim C6: when the pipeline reaches the analyzer and it produces a
result despite uncompilable errors, index does not abort: it marks
every source of the result with HadErrors, hands the result to update
with HadErrors = true, and every version-table entry written in that
update records HadErrors = true; if Execute itself fails, index aborts
with that error and performs no update. -/
theorem index_provisional_merge (env : AnalyzerEnv) (cmd : CompileCommand)
    (table : List (String × ShardVersion)) :
    ((env.fs (getAbsolutePath cmd)).isSome = true → env.buildCIOk = true →
      env.prepOk = true → env.beginOk = true → env.execError = none →
      env.hadUncompilableErrors = true →
      index env cmd table =
        Except.ok (update (getAbsolutePath cmd)
          (markSourcesHadErrors { env.result with Cmd := some cmd })
          table table true env.storeOK) ∧
      (∀ pn ∈ (markSourcesHadErrors
          { env.result with Cmd := some cmd }).Sources,
        pn.2.HadErrors = true) ∧
      (∀ (p : String) (sv : ShardVersion),
        Event.tableWrite p sv ∈
          (update (getAbsolutePath cmd)
            (markSourcesHadErrors { env.result with Cmd := some cmd })
            table table true env.storeOK).2 →
        sv.HadErrors = true)) ∧
    (∀ e : String, (env.fs (getAbsolutePath cmd)).isSome = true →
      env.buildCIOk = true → env.prepOk = true → env.beginOk = true →
      env.execError = some e →
      index env cmd table = Except.error e) := by
  constructor
  · intro h1 h2 h3 h4 h5 h6
    obtain ⟨b, hb⟩ := Option.isSome_iff_exists.mp h1
    refine ⟨?_, ?_, ?_⟩
    · simp [index, hb, h2, h3, h4, h5, h6]
    · intro pn hpn
      simp only [markSourcesHadErrors, List.mem_map] at hpn
      obtain ⟨qn, _, rfl⟩ := hpn
      rfl
    · intro p sv hsv
      exact updateLoop_tableWrite_hadErrors (getAbsolutePath cmd)
        (markSourcesHadErrors { env.result with Cmd := some cmd }) true
        env.storeOK _ table p sv hsv
  · intro e h1 h2 h3 h4 h5
    obtain ⟨b, hb⟩ := Option.isSome_iff_exists.mp h1
    simp [index, hb, h2, h3, h4, h5]

/-- Witness for C6: a concrete erroneous-but-productive run is merged
with HadErrors recorded. -/
theorem index_provisional_merge_witness :
    index envD cmdD [] =
      Except.ok ([(("/proj/d.cpp" : String), (⟨5, true⟩ : ShardVersion))],
        [Event.store ("/proj/d.cpp") ⟨some cmdD, [], [], []⟩ true,
         Event.tableWrite ("/proj/d.cpp") ⟨5, true⟩,
         Event.merge ("/proj/d.cpp") ⟨some cmdD, [], [], []⟩ true]) := by
  have h := ((index_provisional_merge envD cmdD []).1 (by decide) rfl rfl rfl
    rfl rfl).1
  rw [h]
  exact congrArg Except.ok (by decide)

/-- Claim C7 counterexample: a file selected for update whose storeShard
fails is nevertheless not merged and its table entry not written, because
the line-219 skip fires on the same-digest error-recovery input — the
claimed unconditional "proceed to table update and merge" is false. -/
theorem storage_failure_recovery_not_merged :
    (update ("/proj/a.cpp") idxA snapA snapA false (fun _ => false)).2 =
      [Event.store ("/proj/a.cpp") ⟨some cmdA, [], [], []⟩ false] ∧
    (update ("/proj/a.cpp") idxA snapA snapA false (fun _ => false)).1 =
      snapA := by
  constructor
  · decide
  · decide

/-- Claim C7 (amended): a storeShard failure is logged in the trace and
changes nothing else — the final version table, and the table-write and
merge events, are identical to those of a run where storage succeeds;
storage outcome never fails the task. -/
theorem update_storage_failure_tolerated (main : String) (idx : IndexFileIn)
    (snapshot table : List (String × ShardVersion)) (hadErrors : Bool)
    (so1 so2 : String → Bool) :
    (update main idx snapshot table hadErrors so1).1 =
      (update main idx snapshot table hadErrors so2).1 ∧
    (update main idx snapshot table hadErrors so1).2.map eraseStoreOk =
      (update main idx snapshot table hadErrors so2).2.map eraseStoreOk :=
  updateLoop_storeOK_congr main idx hadErrors so1 so2
    (filesToUpdate snapshot hadErrors idx.Sources) table

/-- Claim C8: a shard whose recorded path cannot be read is never
stale; a readable one is stale exactly when the live digest differs
from the recorded one. -/
theorem shardIsStale_spec (fs : String → Option String) (dg : String → Nat)
    (ls : LoadedShard) :
    (fs ls.AbsolutePath = none → shardIsStale fs dg ls = false) ∧
    (∀ b : String, fs ls.AbsolutePath = some b →
      (shardIsStale fs dg ls = true ↔ dg b ≠ ls.Digest)) := by
  constructor
  · intro h
    simp [shardIsStale, h]
  · intro b h
    simp [shardIsStale, h]

/-- Witness for C8: an unreadable recorded path is not stale. -/
theorem shardIsStale_spec_witness :
    shardIsStale (fun _ => none) (fun _ => 0) lsGone = false :=
  (shardIsStale_spec (fun _ => none) (fun _ => 0) lsGone).1 rfl

/-- Claim C9: every shard stored or merged by update carries the TU
compile command exactly when its path is the main file, and no command
otherwise. -/
theorem update_header_shard_no_cmd (main : String) (idx : IndexFileIn)
    (snapshot table : List (String × ShardVersion)) (hadErrors : Bool)
    (storeOK : String → Bool) :
    (∀ (p : String) (sh : IndexShard) (ok : Bool),
      Event.store p sh ok ∈ (update main idx snapshot table hadErrors storeOK).2 →
      sh.Cmd = if p = main then idx.Cmd else none) ∧
    (∀ (p : String) (sh : IndexShard) (b : Bool),
      Event.merge p sh b ∈ (update main idx snapshot table hadErrors storeOK).2 →
      sh.Cmd = if p = main then idx.Cmd else none) := by
  constructor
  · intro p sh ok h
    rw [updateLoop_store_shard main idx hadErrors storeOK _ table p sh ok h]
    exact shardFor_cmd main idx p
  · intro p sh b h
    rw [updateLoop_merge_shard main idx hadErrors storeOK _ table p sh b h]
    exact shardFor_cmd main idx p

/-- Witness for C9: the shard stored for a header of a fresh TU carries
no compile command. -/
theorem update_header_shard_no_cmd_witness :
    (IndexShard.Cmd ⟨none, [], [], []⟩) =
      (if ("/proj/b.h" : String) = ("/proj/b.cpp") then idxB.Cmd else none) :=
  (update_header_shard_no_cmd ("/proj/b.cpp") idxB [] [] false
    (fun _ => true)).1 ("/proj/b.h") ⟨none, [], [], []⟩ true (by decide)

/-- Claim C10: boostRelated is the identity on non-header paths; on a
header path it raises, to the IndexBoostedFile tier, exactly the
pending tasks whose tag equals the header filename without extension;
every task built by indexFileTask is an IndexFile-tier task tagged with
its main file filename without extension, so such tasks are the ones
promoted. -/
theorem boostRelated_spec (isHeader : String → Bool) (path : String)
    (queue : List Task) :
    (isHeader path = false → boostRelated isHeader path queue = queue) ∧
    (isHeader path = true → boostRelated isHeader path queue =
      queue.map (fun t =>
        if t.Tag = some (filenameWithoutExtension path) then
          { t with QueuePri := QueuePriority.IndexBoostedFile }
        else t)) ∧
    (∀ cmd : CompileCommand,
      (indexFileTask cmd).Tag = some (filenameWithoutExtension cmd.Filename) ∧
      (indexFileTask cmd).QueuePri = QueuePriority.IndexFile) ∧
    (isHeader path = true → ∀ t ∈ queue,
      t.Tag = some (filenameWithoutExtension path) →
      { t with QueuePri := QueuePriority.IndexBoostedFile } ∈
        boostRelated isHeader path queue) := by
  refine ⟨fun h => ?_, fun h => ?_, fun cmd => ⟨rfl, rfl⟩, fun h t ht htag => ?_⟩
  · simp [boostRelated, h]
  · simp [boostRelated, h, boost]
  · simp only [boostRelated, h, if_true, boost]
    refine List.mem_map.mpr ⟨t, ht, ?_⟩
    rw [if_pos htag]

/-- Witness for C10: boosting a header promotes exactly the like-named
pending task. -/
theorem boostRelated_spec_witness :
    boostRelated isHeaderDotH ("/inc/foo.h") [taskFoo, taskBar] =
      [{ taskFoo with QueuePri := QueuePriority.IndexBoostedFile }, taskBar] := by
  have h := (boostRelated_spec isHeaderDotH ("/inc/foo.h")
    [taskFoo, taskBar]).2.1 (by decide)
  rw [h]
  decide

end Background
